import Mathlib

/-!
Verification development for the persistence core of `platformio/app.py`:
the `State` store (scoped JSON document with dirty-write detection and a
stale-breaking advisory lock), the `LocalCache` TTL cache (MD5-derived keys,
sharded blob files, `expiry=path` index with lazy sweep), and
`sanitize_setting`.

The embedding is shallow: file-system state is an explicit structure, paths
are component lists (`os.path.join`/`dirname` become list append/`dropLast`),
machine words are `Nat` reduced modulo `2 ^ 32`, and Python exceptions become
explicit error values.  External collaborators that are not part of the
repository (the `lockfile` package, `json.loads`, `util.load_json`) enter as
parameters or action traces, never as hidden assumptions.
-/

namespace PlatformioApp

/-! ### MD5 (`hashlib.md5`), as used by `LocalCache.key_from_args`

`key_from_args` feeds `str(arg)` for each argument into one MD5 context and
returns the 32-character lowercase hex digest.  The digest is implemented
here step by step from RFC 1321 over `Nat` bytes, so digests of concrete
inputs evaluate inside the kernel. -/

/-- 32-bit left rotation on a value below `2 ^ 32`. -/
def rotl32 (x n : Nat) : Nat :=
  (x * 2 ^ n) % 4294967296 + x / 2 ^ (32 - n)

/-- Little-endian byte decomposition, fixed width. -/
def toLEBytes : Nat → Nat → List Nat
  | 0, _ => []
  | n + 1, x => x % 256 :: toLEBytes n (x / 256)

/-- Group a byte list into 32-bit little-endian words (trailing partial
group dropped; inputs are always multiples of 4). -/
def bytesToWords : List Nat → List Nat
  | b0 :: b1 :: b2 :: b3 :: rest =>
      (b0 + 256 * b1 + 65536 * b2 + 16777216 * b3) :: bytesToWords rest
  | _ => []

/-- RFC 1321 padding: append `0x80`, zero-pad to 56 mod 64, then the
original bit length as a 64-bit little-endian quantity. -/
def md5pad (msg : List Nat) : List Nat :=
  msg ++ 0x80 :: List.replicate ((119 - msg.length % 64) % 64) 0
      ++ toLEBytes 8 ((8 * msg.length) % 2 ^ 64)

/-- Split into 64-byte blocks (structural recursion on a fuel bound so the
definition reduces inside the kernel). -/
def chunks64Aux : Nat → List Nat → List (List Nat)
  | 0, _ => []
  | _, [] => []
  | fuel + 1, l => l.take 64 :: chunks64Aux fuel (l.drop 64)

/-- Split into 64-byte blocks. -/
def chunks64 (l : List Nat) : List (List Nat) :=
  chunks64Aux l.length l

/-- Per-round shift amounts. -/
def md5S : List Nat :=
  [7, 12, 17, 22, 7, 12, 17, 22, 7, 12, 17, 22, 7, 12, 17, 22,
   5, 9, 14, 20, 5, 9, 14, 20, 5, 9, 14, 20, 5, 9, 14, 20,
   4, 11, 16, 23, 4, 11, 16, 23, 4, 11, 16, 23, 4, 11, 16, 23,
   6, 10, 15, 21, 6, 10, 15, 21, 6, 10, 15, 21, 6, 10, 15, 21]

/-- Round constants `⌊2^32·|sin (i+1)|⌋`. -/
def md5K : List Nat :=
  [0xd76aa478, 0xe8c7b756, 0x242070db, 0xc1bdceee,
   0xf57c0faf, 0x4787c62a, 0xa8304613, 0xfd469501,
   0x698098d8, 0x8b44f7af, 0xffff5bb1, 0x895cd7be,
   0x6b901122, 0xfd987193, 0xa679438e, 0x49b40821,
   0xf61e2562, 0xc040b340, 0x265e5a51, 0xe9b6c7aa,
   0xd62f105d, 0x02441453, 0xd8a1e681, 0xe7d3fbc8,
   0x21e1cde6, 0xc33707d6, 0xf4d50d87, 0x455a14ed,
   0xa9e3e905, 0xfcefa3f8, 0x676f02d9, 0x8d2a4c8a,
   0xfffa3942, 0x8771f681, 0x6d9d6122, 0xfde5380c,
   0xa4beea44, 0x4bdecfa9, 0xf6bb4b60, 0xbebfbc70,
   0x289b7ec6, 0xeaa127fa, 0xd4ef3085, 0x04881d05,
   0xd9d4d039, 0xe6db99e5, 0x1fa27cf8, 0xc4ac5665,
   0xf4292244, 0x432aff97, 0xab9423a7, 0xfc93a039,
   0x655b59c3, 0x8f0ccc92, 0xffeff47d, 0x85845dd1,
   0x6fa87e4f, 0xfe2ce6e0, 0xa3014314, 0x4e0811a1,
   0xf7537e82, 0xbd3af235, 0x2ad7d2bb, 0xeb86d391]

/-- Nonlinear mixing function for round `i` (complement on a value below
`2 ^ 32` is `4294967295 - ·`). -/
def md5F (i b c d : Nat) : Nat :=
  if i < 16 then b &&& c ||| (4294967295 - b) &&& d
  else if i < 32 then d &&& b ||| (4294967295 - d) &&& c
  else if i < 48 then b ^^^ c ^^^ d
  else c ^^^ (b ||| (4294967295 - d))

/-- Message-word index used in round `i`. -/
def md5g (i : Nat) : Nat :=
  if i < 16 then i % 16
  else if i < 32 then (5 * i + 1) % 16
  else if i < 48 then (3 * i + 5) % 16
  else (7 * i) % 16

/-- One of the 64 rounds, acting on the state `(a, b, c, d)`. -/
def md5step (M : List Nat) (st : Nat × Nat × Nat × Nat) (i : Nat) :
    Nat × Nat × Nat × Nat :=
  let (a, b, c, d) := st
  let f := (md5F i b c d + a + md5K.getD i 0 + M.getD (md5g i) 0) % 4294967296
  (d, (b + rotl32 f (md5S.getD i 0)) % 4294967296, b, c)

/-- Process one 64-byte block. -/
def md5process (st : Nat × Nat × Nat × Nat) (block : List Nat) :
    Nat × Nat × Nat × Nat :=
  let M := bytesToWords block
  let (a, b, c, d) := (List.range 64).foldl (md5step M) st
  ((st.1 + a) % 4294967296, (st.2.1 + b) % 4294967296,
   (st.2.2.1 + c) % 4294967296, (st.2.2.2 + d) % 4294967296)

/-- MD5 digest of a byte list: 16 bytes, little-endian per state word. -/
def md5bytes (msg : List Nat) : List Nat :=
  let st := (chunks64 (md5pad msg)).foldl md5process
    (0x67452301, 0xefcdab89, 0x98badcfe, 0x10325476)
  toLEBytes 4 st.1 ++ toLEBytes 4 st.2.1 ++ toLEBytes 4 st.2.2.1
    ++ toLEBytes 4 st.2.2.2

/-- Lowercase hex character of a nibble. -/
def hexChar (n : Nat) : Char :=
  if n < 10 then Char.ofNat (48 + n) else Char.ofNat (87 + n)

/-- Lowercase hex rendering of a byte list (`hexdigest`). -/
def bytesToHex (l : List Nat) : String :=
  String.mk (l.foldr (fun b acc => hexChar (b / 16) :: hexChar (b % 16) :: acc) [])

/-- Byte view of a (byte-)string, as `hashlib` consumes it. -/
def strBytes (s : String) : List Nat :=
  s.data.map Char.toNat

/-- `LocalCache.key_from_args(*args)`: one MD5 context updated with
`str(data)` for each argument in order, then the hex digest.  Arguments are
taken here already in their string form. -/
def key_from_args (args : List String) : String :=
  bytesToHex (md5bytes (args.foldl (fun acc data => acc ++ strBytes data) []))

/-! ### File-system model

Paths are component lists: `os.path.join(a, b)` is `a ++ [b]` and
`os.path.dirname` is `List.dropLast`.  A file system is an association list
of files (path, content) plus the set of existing directories;
`str.startswith(d + "/")` on normalised paths is proper list-prefix. -/

abbrev FPath := List String

/-- Python exceptions that the modelled code can raise. -/
inductive PyErr
  | assertionError
  | valueError
  | indexError
deriving DecidableEq

structure FS where
  files : List (FPath × String)
  dirs : List FPath
deriving DecidableEq

/-- Content of the file at `p`, if `p` is a file. -/
def lookupFile (fs : FS) (p : FPath) : Option String :=
  fs.files.lookup p

/-- `os.path.isfile`. -/
def isfile (fs : FS) (p : FPath) : Bool :=
  (lookupFile fs p).isSome

/-- `os.path.isdir`. -/
def isdir (fs : FS) (p : FPath) : Bool :=
  fs.dirs.contains p

/-- `open(p, "w")` followed by a full write: truncate/create with `content`. -/
def writeFile (fs : FS) (p : FPath) (content : String) : FS :=
  { fs with files := (p, content) :: fs.files.filter (fun e => !(e.1 == p)) }

/-- `os.remove`. -/
def removeFile (fs : FS) (p : FPath) : FS :=
  { fs with files := fs.files.filter (fun e => !(e.1 == p)) }

/-- `os.path.dirname`. -/
def dirname (p : FPath) : FPath :=
  p.dropLast

/-- `os.listdir d`: entries (files or directories) directly inside `d`. -/
def listdir (fs : FS) (d : FPath) : List FPath :=
  (fs.files.map Prod.fst ++ fs.dirs).filter (fun q => dirname q == d)

/-- `q` lies strictly below directory `d` (`q.startswith(d + "/")`). -/
def underDir (d q : FPath) : Bool :=
  d.isPrefixOf q && d.length < q.length

/-- `util.rmtree_ d`.  Modelled from the spec: `util.rmtree_` lives in
`platformio/util.py`, which is not under `src/`; per the spec it deletes the
directory tree rooted at `d` ("delete the shard directory too", "recursively
removes the entire cache directory tree"). -/
def rmtree (fs : FS) (d : FPath) : FS :=
  { files := fs.files.filter (fun e => !(underDir d e.1)),
    dirs := fs.dirs.filter (fun q => !(q == d) && !(underDir d q)) }

/-- `os.makedirs d`.  Intermediate parents are elided: every call site
creates a shard directory one level below the cache root, and no claim
observes the root's own directory entry. -/
def makedirs (fs : FS) (d : FPath) : FS :=
  { fs with dirs := d :: fs.dirs }

/-! ### State store (`class State`)

The document type is abstract: the store moves opaque JSON documents whose
only interrogated structure is decidable value equality (Python `!=` on the
deep-copied snapshot).  `util.load_json` is repository code not under
`src/`; it enters as the parameter `load_json`, which per the spec parses
the file content and raises `ValueError` on malformed JSON. -/

section StateStore

variable {Doc : Type} [DecidableEq Doc]

/-- `State.__enter__` without the locking step: `self._state` starts as the
empty document, is replaced by `util.load_json(self.path)` when the state
file exists, and is reset to the empty document when that parse raises
`ValueError`.  The `try`/`except ValueError` is total here: no error
escapes to the caller. -/
def stateEnter (fs : FS) (path : FPath) (load_json : String → Except Unit Doc)
    (emptyDoc : Doc) : Doc :=
  match lookupFile fs path with
  | none => emptyDoc
  | some content =>
    match load_json content with
    | Except.ok d => d
    | Except.error _ => emptyDoc

/-- `State.__exit__`: compare the document against the deep-copied snapshot
taken at acquisition and serialise it back iff they differ by value; the
serialiser is indented in dev builds (`"dev" in __version__`).  Returns the
file system together with a flag recording whether a write occurred. -/
def stateExit (fs : FS) (path : FPath) (dev : Bool) (dumpDev dumpRel : Doc → String)
    (prevState state : Doc) : FS × Bool :=
  if prevState ≠ state then
    (writeFile fs path (if dev then dumpDev state else dumpRel state), true)
  else (fs, false)

/-- A full `with State(...) as data:` scope: enter, run the body (which
returns the document value at exit time plus whether it raised), exit.
`__exit__` runs identically on the normal and the raising path.  Returns
(resulting file system, wrote?, final document, raised?). -/
def stateScope (fs : FS) (path : FPath) (load_json : String → Except Unit Doc)
    (emptyDoc : Doc) (dev : Bool) (dumpDev dumpRel : Doc → String)
    (body : Doc → Doc × Bool) : FS × Bool × Doc × Bool :=
  let doc := stateEnter fs path load_json emptyDoc
  let (doc2, raised) := body doc
  let (fs2, wrote) := stateExit fs path dev dumpDev dumpRel doc doc2
  (fs2, wrote, doc2, raised)

end StateStore

/-! ### Lock protocol (`State._lock_state_file`)

The `lockfile` package is an external dependency; its observable surface
here is `is_locked()` (the lock file exists), `break_lock()` and
`acquire()`.  The protocol is modelled as the ordered trace of lock
operations issued for given inputs. -/

inductive LockAction
  | breakLock
  | acquire
deriving DecidableEq

/-- `State._lock_state_file`: nothing happens for `lock=False`; otherwise
the lock is force-broken first exactly when it is held and
`time() - getmtime(lock_file) > 10`, and then `acquire()` is issued. -/
def lock_state_file (lock : Bool) (lockHeld : Bool) (now mtime : Int) :
    List LockAction :=
  if !lock then []
  else
    (if lockHeld && decide (now - mtime > 10) then [LockAction.breakLock] else [])
      ++ [LockAction.acquire]

/-! ### TTL cache (`class LocalCache`) -/

/-- One line of the index file `db.data`.  A line without `=` is `junk`
(skipped by the sweep); an `expiry=path` line is `entry` with the parsed
integer expiry and the blob path. -/
inductive Line
  | junk (raw : String)
  | entry (expire : Int) (path : FPath)
deriving DecidableEq

/-- The cache: root directory, the parsed index file (`none` when
`db.data` is not a file), and the blob file system.  The index file is kept
apart from `fs`; no blob ever lives at the cache root where `db.data`
does. -/
structure LocalCache where
  cache_dir : FPath
  dbIndex : Option (List Line)
  fs : FS
deriving DecidableEq

/-- Last `n` characters of a string (`key[-2:]` is `strTakeRight 2`). -/
def strTakeRight (n : Nat) (s : String) : String :=
  String.mk (s.data.drop (s.data.length - n))

/-- `LocalCache.get_cache_path`: `assert len(key) > 3`, then
`join(cache_dir, key[-2:], key)`. -/
def get_cache_path (cache_dir : FPath) (key : String) : Except PyErr FPath :=
  if key.length > 3 then Except.ok (cache_dir ++ [strTakeRight 2 key, key])
  else Except.error PyErr.assertionError

/-- Blob removal step of the sweep for one expired `entry` path: remove the
blob if it exists, and if its shard directory just became empty, remove
that directory. -/
def sweepExpired (fs : FS) (p : FPath) : FS :=
  if isfile fs p then
    let fs1 := removeFile fs p
    if listdir fs1 (dirname p) == [] then rmtree fs1 (dirname p) else fs1
  else fs

/-- The line loop of `LocalCache.__enter__`: returns (surviving lines in
order, `found` — was any `expiry=path` line expired —, resulting file
system).  A `junk` line is skipped: not kept, `found` untouched.  An
`entry` is kept iff `time() < int(expire)`; otherwise `found` is set and
the blob/shard removal runs. -/
def sweepLoop (now : Int) (fs : FS) : List Line → List Line × Bool × FS
  | [] => ([], false, fs)
  | Line.junk _ :: rest => sweepLoop now fs rest
  | Line.entry e p :: rest =>
    if now < e then
      let r := sweepLoop now fs rest
      (Line.entry e p :: r.1, r.2.1, r.2.2)
    else
      let r := sweepLoop now (sweepExpired fs p) rest
      (r.1, true, r.2.2)

/-- `LocalCache.__enter__`: no-op when `db.data` is not a file; otherwise
run the sweep and rewrite the index with the surviving lines iff some line
was dropped as expired.  Returns the cache and whether the index file was
rewritten. -/
def cacheEnter (now : Int) (c : LocalCache) : LocalCache × Bool :=
  match c.dbIndex with
  | none => (c, false)
  | some lines =>
    let r := sweepLoop now c.fs lines
    if r.2.1 then ({ c with dbIndex := some r.1, fs := r.2.2 }, true)
    else ({ c with fs := r.2.2 }, false)

/-- A line the sweep keeps: an `expiry=path` entry with `now < expiry`. -/
def keepLine (now : Int) : Line → Bool
  | Line.junk _ => false
  | Line.entry e _ => decide (now < e)

/-- A line the sweep drops as expired (what sets `found`). -/
def lineExpired (now : Int) : Line → Bool
  | Line.junk _ => false
  | Line.entry e _ => decide (e ≤ now)

/-- Result of a successful `LocalCache.get` hit: the blob parsed as JSON
(when its first character is `{` or `[`) or its raw text. -/
inductive GetVal (γ : Type)
  | parsed (v : γ)
  | raw (s : String)
deriving DecidableEq

/-- `LocalCache.get`: derive the sharded path (assertion inside), return
`None` when no blob file is there; otherwise read it and dispatch on the
first character — `json.loads` (external, the parameter `json_loads`, which
may itself raise) for `{`/`[`, raw text otherwise.  `data[0]` on an empty
blob raises `IndexError`.  No clock is consulted. -/
def cacheGet {γ : Type} (json_loads : String → Except PyErr γ) (c : LocalCache)
    (key : String) : Except PyErr (Option (GetVal γ)) :=
  match get_cache_path c.cache_dir key with
  | Except.error e => Except.error e
  | Except.ok cache_path =>
    match lookupFile c.fs cache_path with
    | none => Except.ok none
    | some data =>
      match data.data with
      | [] => Except.error PyErr.indexError
      | ch :: _ =>
        if ch = '{' ∨ ch = '[' then
          (json_loads data).map (fun v => some (GetVal.parsed v))
        else Except.ok (some (GetVal.raw data))

/-- `{"s": 1, "m": 60, "h": 3600, "d": 86400}` as a function on the unit
character (`0` outside the suffix alphabet, never reached under the
assertion). -/
def tdmap (c : Char) : Nat :=
  if c = 's' then 1
  else if c = 'm' then 60
  else if c = 'h' then 3600
  else if c = 'd' then 86400
  else 0

/-- `valid.endswith(("s", "m", "h", "d"))`: with one-character suffixes,
membership of the last character in the unit alphabet. -/
def validSuffixOK (valid : String) : Bool :=
  match valid.data.getLast? with
  | some ch => ch == 's' || ch == 'm' || ch == 'h' || ch == 'd'
  | none => false

/-- `valid[:-1]`. -/
def strDropLast (s : String) : String :=
  String.mk s.data.dropLast

/-- Last character of a nonempty string. -/
def strLastChar (s : String) : Char :=
  s.data.getLastD ' '

/-- Digit-run value for Python `int`: nonempty all-digit runs only,
otherwise `ValueError`. -/
def parseDigits (ds : List Char) : Except PyErr Nat :=
  if !ds.isEmpty && ds.all (fun c => c.isDigit) then
    Except.ok (ds.foldl (fun acc c => 10 * acc + (c.toNat - 48)) 0)
  else Except.error PyErr.valueError

/-- Python `int(s)` on a string: surrounding blanks stripped, an optional
sign, then a nonempty digit run; anything else raises `ValueError`. -/
def pyParseInt (s : String) : Except PyErr Int :=
  let core := ((s.data.dropWhile (fun c => c == ' ')).reverse.dropWhile
    (fun c => c == ' ')).reverse
  match core with
  | '+' :: ds => (parseDigits ds).map (fun n => (n : Int))
  | '-' :: ds => (parseDigits ds).map (fun n => -(n : Int))
  | ds => (parseDigits ds).map (fun n => (n : Int))

/-- `LocalCache.set(key, data, valid)`.  `data` enters as its truthiness
plus its serialised blob text (`json.dump` for a dict/list, `str`
otherwise — external encoders).  Returns (resulting cache, raised error if
any, returned `True`?).  Mirrors the statement order of the source: falsy
data returns `None` untouched; the suffix assertion and the key-length
assertion fire before any file effect; the blob write happens before
`int(valid[:-1])`, so a magnitude `ValueError` escapes with the blob
already written; on success `db.data` is opened `"w+"` and rewritten with
the single line `expire_time=cache_path`. -/
def cacheSet (now : Int) (c : LocalCache) (key : String) (dataTruthy : Bool)
    (dataRepr : String) (valid : String) : LocalCache × Option PyErr × Bool :=
  if !dataTruthy then (c, none, false)
  else if !(validSuffixOK valid) then (c, some PyErr.assertionError, false)
  else
    match get_cache_path c.cache_dir key with
    | Except.error e => (c, some e, false)
    | Except.ok cache_path =>
      let fs1 := if !(isdir c.fs (dirname cache_path)) then
          makedirs c.fs (dirname cache_path)
        else c.fs
      let fs2 := writeFile fs1 cache_path dataRepr
      match pyParseInt (strDropLast valid) with
      | Except.error e => ({ c with fs := fs2 }, some e, false)
      | Except.ok mag =>
        let expire_time : Int := now + (tdmap (strLastChar valid) : Int) * mag
        ({ c with fs := fs2, dbIndex := some [Line.entry expire_time cache_path] },
          none, true)

/-- `LocalCache.clean`: remove the whole cache tree when the root exists
(`db.data` lives under the root, so the index file goes with it). -/
def cacheClean (c : LocalCache) : LocalCache :=
  if isdir c.fs c.cache_dir then
    { c with fs := rmtree c.fs c.cache_dir, dbIndex := none }
  else c

/-! ### Settings sanitisation (`sanitize_setting`, `DEFAULT_SETTINGS`)

The catalog's descriptive strings are irrelevant to the claims; each entry
is its default value.  No catalog entry carries a `"validator"` key, so the
`if "validator" in defdata` branch of the source is dead against this
catalog.  The source tests `isinstance(value, bool)` before
`isinstance(value, int)`; booleans and integers are distinct constructors
here. -/

inductive SVal
  | b (v : Bool)
  | i (v : Int)
deriving DecidableEq

def DEFAULT_SETTINGS : List (String × SVal) :=
  [("check_platformio_interval", SVal.i 3),
   ("check_platforms_interval", SVal.i 7),
   ("check_libraries_interval", SVal.i 7),
   ("auto_update_platforms", SVal.b false),
   ("auto_update_libraries", SVal.b false),
   ("force_verbose", SVal.b false),
   ("enable_ssl", SVal.b false),
   ("enable_telemetry", SVal.b true)]

/-- Python values that reach `sanitize_setting`. -/
inductive PyVal
  | pb (v : Bool)
  | pi (v : Int)
  | ps (v : String)
deriving DecidableEq

inductive SettingErr
  | invalidSettingName (name : String)
  | invalidSettingValue (value : PyVal) (name : String)
deriving DecidableEq

/-- Python `str`. -/
def pyStr : PyVal → String
  | PyVal.pb true => "True"
  | PyVal.pb false => "False"
  | PyVal.pi n => toString n
  | PyVal.ps s => s

/-- Python `int(value)` for the values above. -/
def pyInt : PyVal → Except PyErr Int
  | PyVal.pb v => Except.ok (if v then 1 else 0)
  | PyVal.pi n => Except.ok n
  | PyVal.ps s => pyParseInt s

/-- `str.lower`. -/
def strLower (s : String) : String :=
  String.mk (s.data.map Char.toLower)

/-- `sanitize_setting(name, value)`: unknown names raise
`InvalidSettingName`; for a boolean setting a non-boolean value becomes
`str(value).lower() in ("true", "yes", "y", "1")`; for an integer setting
`int(value)` is applied and any failure is re-raised as
`InvalidSettingValue(value, name)`. -/
def sanitize_setting (name : String) (value : PyVal) : Except SettingErr PyVal :=
  match DEFAULT_SETTINGS.lookup name with
  | none => Except.error (SettingErr.invalidSettingName name)
  | some (SVal.b _) =>
    match value with
    | PyVal.pb _ => Except.ok value
    | _ =>
      Except.ok (PyVal.pb (["true", "yes", "y", "1"].contains (strLower (pyStr value))))
  | some (SVal.i _) =>
    match pyInt value with
    | Except.ok n => Except.ok (PyVal.pi n)
    | Except.error _ => Except.error (SettingErr.invalidSettingValue value name)

/-- Concrete cache exercising the sweep: two blobs in distinct shard
directories, the first expired at time 10, the second still valid. -/
def sweepExampleCache : LocalCache :=
  LocalCache.mk ["root"]
    (some [Line.entry 5 ["root", "aa", "xxaa"], Line.entry 20 ["root", "bb", "yybb"]])
    (FS.mk [(["root", "aa", "xxaa"], "1"), (["root", "bb", "yybb"], "2")]
      [["root", "aa"], ["root", "bb"]])

/-- A duration string of the shape the claims describe: an integer
magnitude followed by one unit suffix from `{s, m, h, d}`. -/
def durationWellFormed (valid : String) : Bool :=
  validSuffixOK valid &&
    match pyParseInt (strDropLast valid) with
    | Except.ok _ => true
    | Except.error _ => false

instance exceptDecEq {ε α : Type} [DecidableEq ε] [DecidableEq α] :
    DecidableEq (Except ε α)
  | Except.ok a, Except.ok b =>
    if h : a = b then isTrue (by rw [h]) else isFalse (by simp [h])
  | Except.error a, Except.error b =>
    if h : a = b then isTrue (by rw [h]) else isFalse (by simp [h])
  | Except.ok _, Except.error _ => isFalse (fun h => Except.noConfusion h)
  | Except.error _, Except.ok _ => isFalse (fun h => Except.noConfusion h)

/-! ### Digest evaluation checks (RFC 1321 test vectors) -/

example : bytesToHex (md5bytes (strBytes "")) = "d41d8cd98f00b204e9800998ecf8427e" := by
  decide

example : bytesToHex (md5bytes (strBytes "a")) = "0cc175b9c0f1b6a831c399e269772661" := by
  decide

example : bytesToHex (md5bytes (strBytes "abc")) = "900150983cd24fb0d6963f7d28e17f72" := by
  decide

/-! ### Digest shape lemmas -/

theorem toLEBytes_length (n x : Nat) : (toLEBytes n x).length = n := by
  induction n generalizing x with
  | zero => rfl
  | succ k ih => simp [toLEBytes, ih]

theorem md5bytes_length (msg : List Nat) : (md5bytes msg).length = 16 := by
  unfold md5bytes
  simp [toLEBytes_length]

theorem bytesToHex_length (l : List Nat) : (bytesToHex l).length = 2 * l.length := by
  show (l.foldr (fun b acc => hexChar (b / 16) :: hexChar (b % 16) :: acc) []).length
    = 2 * l.length
  induction l with
  | nil => rfl
  | cons b t ih => simp only [List.foldr, List.length_cons, ih]; omega

theorem key_from_args_length (args : List String) : (key_from_args args).length = 32 := by
  unfold key_from_args
  rw [bytesToHex_length, md5bytes_length]

/-! ### Claim C2 -/

/-- C2: with `lock=True`, the lock is force-broken (then acquired) exactly
when the lock file is held and `time() - getmtime > 10`; a lock no older
than 10 seconds is only acquired, never broken; with `lock=False` no lock
operation is issued at all. -/
theorem C2_lock_staleness (lockHeld : Bool) (now mtime : Int) :
    (lockHeld = true → now - mtime > 10 →
      lock_state_file true lockHeld now mtime
        = [LockAction.breakLock, LockAction.acquire])
    ∧ (now - mtime ≤ 10 →
        lock_state_file true lockHeld now mtime = [LockAction.acquire])
    ∧ (lockHeld = false →
        lock_state_file true lockHeld now mtime = [LockAction.acquire])
    ∧ lock_state_file false lockHeld now mtime = [] := by
  refine ⟨?_, ?_, ?_, rfl⟩
  · intro h1 h2
    subst h1
    unfold lock_state_file
    simp [h2]
  · intro h
    unfold lock_state_file
    have hh : ¬ (now - mtime > 10) := by omega
    simp [hh]
  · intro h
    subst h
    unfold lock_state_file
    simp

/-- C2 witness: a held 25-second-old lock is broken before the acquire; a
held lock exactly 10 seconds old is only acquired. -/
theorem C2_witness :
    lock_state_file true true 25 0 = [LockAction.breakLock, LockAction.acquire]
    ∧ lock_state_file true true 10 0 = [LockAction.acquire] :=
  ⟨(C2_lock_staleness true 25 0).1 rfl (by decide),
   (C2_lock_staleness true 10 0).2.1 (by decide)⟩

/-! ### Claim C5 -/

/-- C5: scoped acquisition of the state store yields the empty document
both when the state file is missing and when its contents fail to parse
(`load_json` raising `ValueError`); `stateEnter` is a total function, so
the parse failure never propagates. -/
theorem C5_malformed_state {Doc : Type} (fs : FS) (path : FPath)
    (load_json : String → Except Unit Doc) (emptyDoc : Doc) :
    (lookupFile fs path = none → stateEnter fs path load_json emptyDoc = emptyDoc)
    ∧ (∀ content, lookupFile fs path = some content →
        load_json content = Except.error () →
        stateEnter fs path load_json emptyDoc = emptyDoc) := by
  constructor
  · intro h
    unfold stateEnter
    rw [h]
  · intro content h1 h2
    unfold stateEnter
    rw [h1]
    show (match load_json content with
      | Except.ok d => d
      | Except.error _ => emptyDoc) = emptyDoc
    rw [h2]

/-- C5 witness: a state file holding `not json` (rejected by the parser)
and a missing state file both enter as the empty document. -/
theorem C5_witness :
    stateEnter (FS.mk [(["home", "appstate.json"], "not json")] [])
      ["home", "appstate.json"] (fun _ => Except.error ()) (0 : Nat) = 0
    ∧ stateEnter (FS.mk [] []) ["home", "appstate.json"]
        (fun _ => Except.error ()) (0 : Nat) = 0 :=
  ⟨(C5_malformed_state _ _ _ _).2 "not json" (by decide) rfl,
   (C5_malformed_state _ _ _ _).1 (by decide)⟩

/-! ### Claim C8 -/

/-- C8: `sanitize_setting` raises the name-validation error with the name
for every name outside the catalog; for a boolean setting a non-boolean
value maps to `True` exactly when its lowercased string form is in
`{"true", "yes", "y", "1"}` (so `("enable_telemetry", "no")` yields
`False`); an integer setting parses the value (so
`("check_platformio_interval", "10")` yields `10`), and a coercion failure
raises the value-validation error carrying the value and the name. -/
theorem C8_sanitize (name : String) (value : PyVal) :
    (DEFAULT_SETTINGS.lookup name = none →
      sanitize_setting name value
        = Except.error (SettingErr.invalidSettingName name))
    ∧ (∀ b, DEFAULT_SETTINGS.lookup name = some (SVal.b b) →
        (∀ v, value ≠ PyVal.pb v) →
        sanitize_setting name value
          = Except.ok (PyVal.pb
              (["true", "yes", "y", "1"].contains (strLower (pyStr value)))))
    ∧ (∀ d, DEFAULT_SETTINGS.lookup name = some (SVal.i d) →
        ∀ err, pyInt value = Except.error err →
        sanitize_setting name value
          = Except.error (SettingErr.invalidSettingValue value name))
    ∧ sanitize_setting "enable_telemetry" (PyVal.ps "no") = Except.ok (PyVal.pb false)
    ∧ sanitize_setting "check_platformio_interval" (PyVal.ps "10")
        = Except.ok (PyVal.pi 10) := by
  refine ⟨?_, ?_, ?_, by decide, by decide⟩
  · intro h
    unfold sanitize_setting
    rw [h]
  · intro b hb hv
    unfold sanitize_setting
    rw [hb]
    cases value with
    | pb v => exact absurd rfl (hv v)
    | pi n => rfl
    | ps s => rfl
  · intro d hd err herr
    unfold sanitize_setting
    rw [hd, herr]

/-- C8 witness: an unknown name and a non-numeric integer value are both
rejected with the offending name/value. -/
theorem C8_witness :
    sanitize_setting "no_such_setting" (PyVal.ps "x")
      = Except.error (SettingErr.invalidSettingName "no_such_setting")
    ∧ sanitize_setting "check_platformio_interval" (PyVal.ps "ten")
      = Except.error
          (SettingErr.invalidSettingValue (PyVal.ps "ten") "check_platformio_interval") :=
  ⟨(C8_sanitize "no_such_setting" (PyVal.ps "x")).1 (by decide),
   (C8_sanitize "check_platformio_interval" (PyVal.ps "ten")).2.2.1 3 (by decide)
     PyErr.valueError (by decide)⟩

/-! ### Claim C10 -/

/-- C10: `get_cache_path` asserts `len(key) > 3` and under that returns
`cache_dir` joined with the key's last two characters and then the full
key; every `key_from_args` digest has length 32, so the assertion never
fires on derived keys. -/
theorem C10_cache_path (cache_dir : FPath) (key : String) (args : List String) :
    (key.length > 3 →
      get_cache_path cache_dir key
        = Except.ok (cache_dir ++ [strTakeRight 2 key, key]))
    ∧ (¬ key.length > 3 →
        get_cache_path cache_dir key = Except.error PyErr.assertionError)
    ∧ (key_from_args args).length = 32
    ∧ get_cache_path cache_dir (key_from_args args)
        = Except.ok (cache_dir
            ++ [strTakeRight 2 (key_from_args args), key_from_args args]) := by
  refine ⟨?_, ?_, key_from_args_length args, ?_⟩
  · intro h
    unfold get_cache_path
    rw [if_pos h]
  · intro h
    unfold get_cache_path
    rw [if_neg h]
  · unfold get_cache_path
    rw [if_pos (by rw [key_from_args_length]; norm_num)]

/-- C10 witness: the sharded path of a concrete four-character key, and the
32-character digest length at a concrete argument list. -/
theorem C10_witness :
    get_cache_path ["home", ".cache"] "abcd"
      = Except.ok ["home", ".cache", "cd", "abcd"]
    ∧ (key_from_args ["a"]).length = 32 := by
  refine ⟨?_, (C10_cache_path ["home", ".cache"] "abcd" ["a"]).2.2.1⟩
  have h := (C10_cache_path ["home", ".cache"] "abcd" ["a"]).1 (by decide)
  rw [h]
  rfl

/-! ### Claim C6 -/

/-- C6 counterexample: `key_from_args` hashes the concatenation of the
arguments' string forms, so the distinct argument lists `("a", "b")` and
`("ab",)` yield the same key — "for every two different argument lists, the
keys differ" is false. -/
theorem C6_counterexample :
    key_from_args ["a", "b"] = key_from_args ["ab"]
    ∧ (["a", "b"] : List String) ≠ ["ab"] :=
  ⟨rfl, by decide⟩

/-- C6 (amended): `key_from_args` is deterministic — the key depends only
on the concatenation of the string forms of the arguments (hence repeated
calls with the same arguments agree, while distinct argument lists with
equal concatenations collide) — and `key_from_args("a","b")` differs from
`key_from_args("b","a")`. -/
theorem C6_key_determinism (xs ys : List String) :
    (xs.foldl (fun acc data => acc ++ strBytes data) []
        = ys.foldl (fun acc data => acc ++ strBytes data) [] →
      key_from_args xs = key_from_args ys)
    ∧ key_from_args ["a", "b"] ≠ key_from_args ["b", "a"] := by
  constructor
  · intro h
    unfold key_from_args
    rw [h]
  · decide

/-- C6 witness: the dependence on concatenations alone, applied to the
concrete lists `["a", "b"]` and `["ab"]`. -/
theorem C6_witness : key_from_args ["a", "b"] = key_from_args ["ab"] :=
  (C6_key_determinism ["a", "b"] ["ab"]).1 (by decide)

/-! ### `cacheSet` lemmas (shared by C4 and C9) -/

theorem lookupFile_writeFile_self (fs : FS) (p : FPath) (content : String) :
    lookupFile (writeFile fs p content) p = some content := by
  show ((p, content) :: fs.files.filter _).lookup p = some content
  simp [List.lookup]

theorem pyParseInt_error_eq (s : String) (err : PyErr)
    (h : pyParseInt s = Except.error err) : err = PyErr.valueError := by
  simp only [pyParseInt] at h
  split at h <;>
  · unfold parseDigits at h
    split at h
    · dsimp only [Except.map] at h
      exact Except.noConfusion h
    · dsimp only [Except.map] at h
      injection h with h1
      exact h1.symm

/-- `cacheSet` when the suffix assertion passes but the magnitude fails
`int(valid[:-1])`: the shard directory and the blob have already been
written when the `ValueError` escapes, and the index file is untouched. -/
theorem cacheSet_magnitude_error (now : Int) (c : LocalCache)
    (key dataRepr valid : String) (err : PyErr) (hkey : key.length > 3)
    (hsuf : validSuffixOK valid = true)
    (herr : pyParseInt (strDropLast valid) = Except.error err) :
    cacheSet now c key true dataRepr valid
      = ({ c with
            fs := writeFile
              (if !(isdir c.fs (dirname (c.cache_dir ++ [strTakeRight 2 key, key]))) then
                  makedirs c.fs (dirname (c.cache_dir ++ [strTakeRight 2 key, key]))
                else c.fs)
              (c.cache_dir ++ [strTakeRight 2 key, key]) dataRepr },
          some err, false) := by
  unfold cacheSet get_cache_path
  rw [hsuf, if_pos hkey]
  simp only [Bool.not_true, Bool.false_eq_true, if_false, herr]

theorem cacheSet_ok (now : Int) (c : LocalCache) (key dataRepr valid : String)
    (mag : Int) (hkey : key.length > 3) (hsuf : validSuffixOK valid = true)
    (hmag : pyParseInt (strDropLast valid) = Except.ok mag) :
    cacheSet now c key true dataRepr valid
      = ({ c with
            fs := writeFile
              (if !(isdir c.fs (dirname (c.cache_dir ++ [strTakeRight 2 key, key]))) then
                  makedirs c.fs (dirname (c.cache_dir ++ [strTakeRight 2 key, key]))
                else c.fs)
              (c.cache_dir ++ [strTakeRight 2 key, key]) dataRepr,
            dbIndex := some [Line.entry (now + (tdmap (strLastChar valid) : Int) * mag)
              (c.cache_dir ++ [strTakeRight 2 key, key])] },
          none, true) := by
  unfold cacheSet get_cache_path
  rw [hsuf, if_pos hkey]
  simp only [Bool.not_true, Bool.false_eq_true, if_false, hmag]

/-! ### Claim C4 -/

/-- C4: a successful `set` with truthy data rewrites the index file to
exactly the one line for the entry just written, whatever the index held
before. -/
theorem C4_set_collapses_index (now : Int) (c : LocalCache) (key dataRepr valid : String)
    (mag : Int) (hkey : key.length > 3) (hsuf : validSuffixOK valid = true)
    (hmag : pyParseInt (strDropLast valid) = Except.ok mag) :
    (cacheSet now c key true dataRepr valid).1.dbIndex
      = some [Line.entry (now + (tdmap (strLastChar valid) : Int) * mag)
          (c.cache_dir ++ [strTakeRight 2 key, key])]
    ∧ (cacheSet now c key true dataRepr valid).2.2 = true
    ∧ (cacheSet now c key true dataRepr valid).2.1 = none := by
  rw [cacheSet_ok now c key dataRepr valid mag hkey hsuf hmag]
  exact ⟨rfl, rfl, rfl⟩

/-- C4 witness: a concrete `set` collapses a two-entry index to the single
line for the new entry. -/
theorem C4_witness :
    (cacheSet 100
        (LocalCache.mk ["root"]
          (some [Line.entry 500 ["root", "aa", "aaaa"], Line.entry 900 ["root", "bb", "bbbb"]])
          (FS.mk [] []))
        "abcd" true "blob" "2s").1.dbIndex
      = some [Line.entry 102 ["root", "cd", "abcd"]] := by
  have h := (C4_set_collapses_index 100
    (LocalCache.mk ["root"]
      (some [Line.entry 500 ["root", "aa", "aaaa"], Line.entry 900 ["root", "bb", "bbbb"]])
      (FS.mk [] []))
    "abcd" "blob" "2s" 2 (by decide) (by decide) (by decide)).1
  rw [h]
  rfl

/-! ### Claim C9 -/

/-- C9 counterexample: `"xs"` is a malformed duration string whose
assertion nevertheless passes (`endswith` only checks the final
character); the failure it produces is a `ValueError` from `int("x")`
after the blob write, not the asserted precondition. -/
theorem C9_counterexample :
    durationWellFormed "xs" = false
    ∧ validSuffixOK "xs" = true
    ∧ (cacheSet 0 (LocalCache.mk ["root"] none (FS.mk [] [])) "abcd" true "blob" "xs").2.1
        = some PyErr.valueError := by
  refine ⟨by decide, by decide, by decide⟩

/-- C9 (amended): a duration string whose final character is outside
`{s, m, h, d}` fails the asserted precondition (with no effect on the
cache); every malformed string with a valid final character instead passes
the assertion and raises `ValueError` from integer parsing of the
magnitude, after the shard directory and the blob have already been
written and with the index untouched; under the precondition that `valid`
is an integer magnitude followed by one unit suffix, the recorded
absolute expiry equals now plus magnitude times the unit's seconds, the
units mapping to 1, 60, 3600 and 86400 seconds. -/
theorem C9_duration (now : Int) (c : LocalCache) (key dataRepr valid : String)
    (mag : Int) (hsuf : validSuffixOK valid = true)
    (hmag : pyParseInt (strDropLast valid) = Except.ok mag)
    (hkey : key.length > 3) :
    (cacheSet now c key true dataRepr valid).2.1 = none
    ∧ (cacheSet now c key true dataRepr valid).1.dbIndex
        = some [Line.entry (now + (tdmap (strLastChar valid) : Int) * mag)
            (c.cache_dir ++ [strTakeRight 2 key, key])]
    ∧ (∀ v, validSuffixOK v = false →
        cacheSet now c key true dataRepr v = (c, some PyErr.assertionError, false))
    ∧ (∀ v err, validSuffixOK v = true →
        pyParseInt (strDropLast v) = Except.error err →
        cacheSet now c key true dataRepr v
          = ({ c with
                fs := writeFile
                  (if !(isdir c.fs (dirname (c.cache_dir ++ [strTakeRight 2 key, key]))) then
                      makedirs c.fs (dirname (c.cache_dir ++ [strTakeRight 2 key, key]))
                    else c.fs)
                  (c.cache_dir ++ [strTakeRight 2 key, key]) dataRepr },
              some err, false)
        ∧ err = PyErr.valueError
        ∧ lookupFile (cacheSet now c key true dataRepr v).1.fs
            (c.cache_dir ++ [strTakeRight 2 key, key]) = some dataRepr)
    ∧ tdmap 's' = 1 ∧ tdmap 'm' = 60 ∧ tdmap 'h' = 3600 ∧ tdmap 'd' = 86400 := by
  refine ⟨?_, ?_, ?_, ?_, rfl, rfl, rfl, rfl⟩
  · rw [cacheSet_ok now c key dataRepr valid mag hkey hsuf hmag]
  · rw [cacheSet_ok now c key dataRepr valid mag hkey hsuf hmag]
  · intro v hv
    unfold cacheSet
    rw [hv]
    rfl
  · intro v err hv herrv
    refine ⟨cacheSet_magnitude_error now c key dataRepr v err hkey hv herrv,
      pyParseInt_error_eq _ _ herrv, ?_⟩
    rw [cacheSet_magnitude_error now c key dataRepr v err hkey hv herrv]
    exact lookupFile_writeFile_self _ _ _

/-- C9 witness: a concrete success (`"2m"` at now = 100 records expiry
220); the assertion firing on `"2x"`; and the malformed-but-suffixed
`"xs"` passing the assertion, raising `ValueError`, with the blob already
written and readable at the sharded path in the escaping state. -/
theorem C9_witness :
    (cacheSet 100 (LocalCache.mk ["root"] none (FS.mk [] [])) "abcd" true "blob" "2m").1.dbIndex
      = some [Line.entry 220 ["root", "cd", "abcd"]]
    ∧ (cacheSet 100 (LocalCache.mk ["root"] none (FS.mk [] [])) "abcd" true "blob" "2x").2.1
      = some PyErr.assertionError
    ∧ (cacheSet 100 (LocalCache.mk ["root"] none (FS.mk [] [])) "abcd" true "blob" "xs").2.1
      = some PyErr.valueError
    ∧ lookupFile
        (cacheSet 100 (LocalCache.mk ["root"] none (FS.mk [] [])) "abcd" true "blob" "xs").1.fs
        ["root", "cd", "abcd"]
      = some "blob" := by
  have h := C9_duration 100 (LocalCache.mk ["root"] none (FS.mk [] []))
    "abcd" "blob" "2m" 2 (by decide) (by decide) (by decide)
  have h3 := h.2.2.2.1 "xs" PyErr.valueError (by decide) (by decide)
  refine ⟨?_, ?_, ?_, ?_⟩
  · rw [h.2.1]
    rfl
  · rw [h.2.2.1 "2x" (by decide)]
  · rw [h3.1]
  · exact h3.2.2

/-! ### Claim C1 -/

/-- C1: over a whole scope (enter, body — normal or raising —, exit), the
document is serialised and written back iff its value at release differs
from the value loaded at acquisition; when the values agree the file
system is returned untouched, with no write event. -/
theorem C1_state_scope {Doc : Type} [DecidableEq Doc] (fs : FS) (path : FPath)
    (load_json : String → Except Unit Doc) (emptyDoc : Doc) (dev : Bool)
    (dumpDev dumpRel : Doc → String) (body : Doc → Doc × Bool) :
    ((stateScope fs path load_json emptyDoc dev dumpDev dumpRel body).2.2.1
        = stateEnter fs path load_json emptyDoc →
      (stateScope fs path load_json emptyDoc dev dumpDev dumpRel body).1 = fs
      ∧ (stateScope fs path load_json emptyDoc dev dumpDev dumpRel body).2.1 = false)
    ∧ ((stateScope fs path load_json emptyDoc dev dumpDev dumpRel body).2.2.1
        ≠ stateEnter fs path load_json emptyDoc →
      (stateScope fs path load_json emptyDoc dev dumpDev dumpRel body).1
        = writeFile fs path (if dev then
            dumpDev (stateScope fs path load_json emptyDoc dev dumpDev dumpRel body).2.2.1
          else
            dumpRel (stateScope fs path load_json emptyDoc dev dumpDev dumpRel body).2.2.1)
      ∧ (stateScope fs path load_json emptyDoc dev dumpDev dumpRel body).2.1 = true) := by
  unfold stateScope
  rcases hb : body (stateEnter fs path load_json emptyDoc) with ⟨d2, rz⟩
  simp only [hb]
  unfold stateExit
  by_cases h : stateEnter fs path load_json emptyDoc = d2
  · rw [if_neg (not_not_intro h)]
    exact ⟨fun _ => ⟨rfl, rfl⟩, fun hne => absurd h.symm hne⟩
  · rw [if_pos h]
    exact ⟨fun heq => absurd heq.symm h, fun _ => ⟨rfl, rfl⟩⟩

/-- C1 witness: a body that mutates the document and raises still triggers
the write-back of the new value; a body that leaves the document
value-equal (here: returning normally) causes no write. -/
theorem C1_witness :
    (stateScope (FS.mk [(["home", "appstate.json"], "5")] []) ["home", "appstate.json"]
        (fun s => if s = "5" then Except.ok 5 else Except.error ()) (0 : Nat)
        false (fun d => toString d) (fun d => toString d) (fun d => (d + 1, true))).1
      = writeFile (FS.mk [(["home", "appstate.json"], "5")] []) ["home", "appstate.json"] "6"
    ∧ (stateScope (FS.mk [(["home", "appstate.json"], "5")] []) ["home", "appstate.json"]
        (fun s => if s = "5" then Except.ok 5 else Except.error ()) (0 : Nat)
        false (fun d => toString d) (fun d => toString d) (fun d => (d, false))).1
      = FS.mk [(["home", "appstate.json"], "5")] [] := by
  constructor
  · have h := (C1_state_scope (FS.mk [(["home", "appstate.json"], "5")] [])
      ["home", "appstate.json"] (fun s => if s = "5" then Except.ok 5 else Except.error ())
      (0 : Nat) false (fun d => toString d) (fun d => toString d)
      (fun d => (d + 1, true))).2 (by decide)
    rw [h.1]
    rfl
  · exact ((C1_state_scope (FS.mk [(["home", "appstate.json"], "5")] [])
      ["home", "appstate.json"] (fun s => if s = "5" then Except.ok 5 else Except.error ())
      (0 : Nat) false (fun d => toString d) (fun d => toString d)
      (fun d => (d, false))).1 (by decide)).1

/-! ### Claim C7 -/

theorem cacheGet_eq {γ : Type} (json_loads : String → Except PyErr γ)
    (c : LocalCache) (key : String) (hkey : key.length > 3) :
    cacheGet json_loads c key
      = match lookupFile c.fs (c.cache_dir ++ [strTakeRight 2 key, key]) with
        | none => Except.ok none
        | some data =>
          match data.data with
          | [] => Except.error PyErr.indexError
          | ch :: _ =>
            if ch = '{' ∨ ch = '[' then
              (json_loads data).map (fun v => some (GetVal.parsed v))
            else Except.ok (some (GetVal.raw data)) := by
  unfold cacheGet get_cache_path
  rw [if_pos hkey]

/-- C7 counterexample: a key whose blob file exists but is empty makes
`get` raise `IndexError` (`data[0]` on the empty string) instead of
returning the blob as raw text, refuting the claim's "returned as raw text
otherwise" for every existing blob. -/
theorem C7_counterexample :
    cacheGet (fun _ => Except.ok (0 : Nat))
        (LocalCache.mk ["root"] none (FS.mk [(["root", "cd", "abcd"], "")] [["root", "cd"]]))
        "abcd"
      = Except.error PyErr.indexError
    ∧ cacheGet (fun _ => Except.ok (0 : Nat))
        (LocalCache.mk ["root"] none (FS.mk [(["root", "cd", "abcd"], "")] [["root", "cd"]]))
        "abcd"
      ≠ Except.ok (some (GetVal.raw "")) := by
  exact ⟨by decide, by decide⟩

/-- C7 (amended): for keys longer than 3, `get` returns `None` exactly
when no blob file exists at the derived sharded path; an existing nonempty
blob is parsed with `json.loads` when its first character is `{` or `[`
and returned as raw text otherwise, while an existing empty blob raises
`IndexError`; no expiry comparison is made at get-time — the result is
independent of the index contents (and of any clock), so a logically
expired but not-yet-swept entry is still returned. -/
theorem C7_get (γ : Type) (json_loads : String → Except PyErr γ)
    (c : LocalCache) (key : String) (hkey : key.length > 3) :
    (cacheGet json_loads c key = Except.ok none
      ↔ lookupFile c.fs (c.cache_dir ++ [strTakeRight 2 key, key]) = none)
    ∧ (∀ data, lookupFile c.fs (c.cache_dir ++ [strTakeRight 2 key, key]) = some data →
        (∀ ch rest, data.data = ch :: rest →
          ((ch = '{' ∨ ch = '[') →
            cacheGet json_loads c key
              = (json_loads data).map (fun v => some (GetVal.parsed v)))
          ∧ (¬(ch = '{' ∨ ch = '[') →
            cacheGet json_loads c key = Except.ok (some (GetVal.raw data))))
        ∧ (data.data = [] →
            cacheGet json_loads c key = Except.error PyErr.indexError))
    ∧ (∀ idx, cacheGet json_loads (LocalCache.mk c.cache_dir idx c.fs) key
        = cacheGet json_loads c key) := by
  refine ⟨?_, ?_, fun idx => rfl⟩
  · rw [cacheGet_eq json_loads c key hkey]
    rcases hl : lookupFile c.fs (c.cache_dir ++ [strTakeRight 2 key, key]) with _ | data
    · simp
    · dsimp only
      constructor
      · intro h
        exfalso
        rcases hd : data.data with _ | ⟨ch, rest⟩
        · rw [hd] at h
          exact Except.noConfusion h
        · rw [hd] at h
          dsimp only at h
          by_cases hch : ch = '{' ∨ ch = '['
          · rw [if_pos hch] at h
            rcases hj : json_loads data with e | v
            · rw [hj] at h
              exact Except.noConfusion h
            · rw [hj] at h
              simp [Except.map] at h
          · rw [if_neg hch] at h
            simp at h
      · intro h
        exact Option.noConfusion h
  · intro data hdata
    rw [cacheGet_eq json_loads c key hkey, hdata]
    dsimp only
    constructor
    · intro ch rest hd
      rw [hd]
      dsimp only
      constructor
      · intro hch
        rw [if_pos hch]
      · intro hch
        rw [if_neg hch]
    · intro hd
      rw [hd]

/-- C7 witness: a nonempty non-JSON blob comes back as raw text; a missing
blob yields `None`. -/
theorem C7_witness :
    cacheGet (fun _ => Except.ok (0 : Nat))
        (LocalCache.mk ["root"] none
          (FS.mk [(["root", "cd", "abcd"], "hello")] [["root", "cd"]]))
        "abcd"
      = Except.ok (some (GetVal.raw "hello"))
    ∧ cacheGet (fun _ => Except.ok (0 : Nat))
        (LocalCache.mk ["root"] none (FS.mk [] [])) "abcd"
      = Except.ok none := by
  constructor
  · exact (((C7_get Nat (fun _ => Except.ok 0)
      (LocalCache.mk ["root"] none
        (FS.mk [(["root", "cd", "abcd"], "hello")] [["root", "cd"]]))
      "abcd" (by decide)).2.1 "hello" (by decide)).1 'h' "ello".data rfl).2 (by decide)
  · exact ((C7_get Nat (fun _ => Except.ok 0)
      (LocalCache.mk ["root"] none (FS.mk [] [])) "abcd" (by decide)).1).mpr (by decide)

/-! ### Association-list and path lemmas (toward claim C3) -/

theorem lookup_isSome_iff (l : List (FPath × String)) (p : FPath) :
    (l.lookup p).isSome = true ↔ ∃ v, (p, v) ∈ l := by
  induction l with
  | nil => simp [List.lookup]
  | cons a t ih =>
    rcases a with ⟨k, v⟩
    by_cases h : p = k
    · subst h
      simp [List.lookup]
    · have hbeq : (p == k) = false := beq_eq_false_iff_ne.mpr h
      simp [List.lookup, hbeq, ih, h]

theorem lookup_filter (l : List (FPath × String)) (pred : FPath × String → Bool)
    (q : FPath) (hq : ∀ v, pred (q, v) = true) :
    (l.filter pred).lookup q = l.lookup q := by
  induction l with
  | nil => rfl
  | cons a t ih =>
    rcases a with ⟨k, v⟩
    by_cases h : q = k
    · subst h
      rw [List.filter_cons, if_pos (hq v)]
      simp [List.lookup]
    · have hbeq : (q == k) = false := beq_eq_false_iff_ne.mpr h
      rcases hp : pred (k, v) with _ | _
      · rw [List.filter_cons, if_neg (by simp [hp])]
        rw [ih]
        simp [List.lookup, hbeq]
      · rw [List.filter_cons, if_pos hp]
        simp [List.lookup, hbeq, ih]

theorem isfile_false_of_subset (fs fs' : FS) (p : FPath)
    (hsub : ∀ x, x ∈ fs'.files → x ∈ fs.files) (h : isfile fs p = false) :
    isfile fs' p = false := by
  rcases hf : isfile fs' p with _ | _
  · rfl
  · exfalso
    obtain ⟨v, hv⟩ := (lookup_isSome_iff fs'.files p).mp hf
    have h2 : isfile fs p = true := (lookup_isSome_iff fs.files p).mpr ⟨v, hsub _ hv⟩
    rw [h] at h2
    exact Bool.noConfusion h2

theorem underDir_eq_true_iff (d q : FPath) :
    underDir d q = true ↔ d <+: q ∧ d.length < q.length := by
  unfold underDir
  rw [Bool.and_eq_true, List.isPrefixOf_iff_prefix, decide_eq_true_eq]

/-! ### `sweepExpired` lemmas -/

theorem removeFile_isfile_self (fs : FS) (p : FPath) :
    isfile (removeFile fs p) p = false := by
  rcases h : isfile (removeFile fs p) p with _ | _
  · rfl
  · exfalso
    obtain ⟨v, hv⟩ := (lookup_isSome_iff _ _).mp h
    have h2 := (List.mem_filter.mp hv).2
    simp at h2

theorem sweepExpired_files_subset (fs : FS) (p : FPath) :
    ∀ x, x ∈ (sweepExpired fs p).files → x ∈ fs.files := by
  intro x hx
  unfold sweepExpired at hx
  split at hx
  · dsimp only at hx
    split at hx
    · exact (List.mem_filter.mp (List.mem_filter.mp hx).1).1
    · exact (List.mem_filter.mp hx).1
  · exact hx

theorem sweepExpired_dirs_subset (fs : FS) (p : FPath) :
    ∀ d, d ∈ (sweepExpired fs p).dirs → d ∈ fs.dirs := by
  intro d hd
  unfold sweepExpired at hd
  split at hd
  · dsimp only at hd
    split at hd
    · exact (List.mem_filter.mp hd).1
    · exact hd
  · exact hd

theorem sweepExpired_isfile_self (fs : FS) (p : FPath) :
    isfile (sweepExpired fs p) p = false := by
  unfold sweepExpired
  split
  · dsimp only
    split
    · apply isfile_false_of_subset (removeFile fs p)
      · intro x hx
        exact (List.mem_filter.mp hx).1
      · exact removeFile_isfile_self fs p
    · exact removeFile_isfile_self fs p
  · next h => exact Bool.not_eq_true _ ▸ (Bool.eq_false_iff.mpr fun he => h he)

theorem sweepExpired_lookup_frame (fs : FS) (p q : FPath)
    (hq : ¬ dirname p <+: q) :
    lookupFile (sweepExpired fs p) q = lookupFile fs q := by
  have hqp : q ≠ p := by
    intro he
    subst he
    exact hq (List.dropLast_prefix q)
  have hremove : ∀ v, (fun e : FPath × String => !(e.1 == p)) (q, v) = true := by
    intro v
    simp [beq_eq_false_iff_ne.mpr hqp]
  have hrmtree : ∀ v, (fun e : FPath × String => !(underDir (dirname p) e.1)) (q, v) = true := by
    intro v
    rcases hu : underDir (dirname p) q with _ | _
    · simp [hu]
    · exact absurd ((underDir_eq_true_iff _ _).mp hu).1 hq
  unfold sweepExpired
  split
  · dsimp only
    split
    · show ((fs.files.filter _).filter _).lookup q = _
      rw [lookup_filter _ _ q hrmtree, lookup_filter _ _ q hremove]
      rfl
    · show (fs.files.filter _).lookup q = _
      rw [lookup_filter _ _ q hremove]
      rfl
  · rfl

theorem sweepExpired_dirs_frame (fs : FS) (p d : FPath)
    (hd : ¬ dirname p <+: d) :
    (d ∈ (sweepExpired fs p).dirs ↔ d ∈ fs.dirs) := by
  have h1 : (d == dirname p) = false := by
    apply beq_eq_false_iff_ne.mpr
    intro he
    subst he
    exact hd List.prefix_rfl
  have h2 : underDir (dirname p) d = false := by
    rcases hu : underDir (dirname p) d with _ | _
    · rfl
    · exact absurd ((underDir_eq_true_iff _ _).mp hu).1 hd
  unfold sweepExpired
  split
  · dsimp only
    split
    · show d ∈ fs.dirs.filter _ ↔ d ∈ fs.dirs
      rw [List.mem_filter]
      constructor
      · exact fun h => h.1
      · intro h
        exact ⟨h, by simp [h1, h2]⟩
    · exact Iff.rfl
  · exact Iff.rfl

/-! ### `sweepLoop` lemmas -/

theorem sweepLoop_files_subset (now : Int) (lines : List Line) :
    ∀ fs : FS, ∀ x, x ∈ (sweepLoop now fs lines).2.2.files → x ∈ fs.files := by
  induction lines with
  | nil => exact fun fs x hx => hx
  | cons hd rest ih =>
    intro fs x hx
    cases hd with
    | junk s => exact ih fs x hx
    | entry e p =>
      simp only [sweepLoop] at hx
      by_cases h2 : now < e
      · rw [if_pos h2] at hx
        exact ih fs x hx
      · rw [if_neg h2] at hx
        exact sweepExpired_files_subset fs p x (ih (sweepExpired fs p) x hx)

theorem sweepLoop_newlines (now : Int) (lines : List Line) :
    ∀ fs : FS, (sweepLoop now fs lines).1 = lines.filter (keepLine now) := by
  induction lines with
  | nil => exact fun fs => rfl
  | cons hd rest ih =>
    intro fs
    cases hd with
    | junk s =>
      show (sweepLoop now fs rest).1 = _
      rw [List.filter_cons, if_neg (by simp [keepLine])]
      exact ih fs
    | entry e p =>
      simp only [sweepLoop]
      by_cases h2 : now < e
      · rw [if_pos h2, List.filter_cons, if_pos (by simp [keepLine, h2])]
        dsimp only
        rw [ih fs]
      · rw [if_neg h2, List.filter_cons, if_neg (by simp [keepLine, h2])]
        dsimp only
        rw [ih (sweepExpired fs p)]

theorem sweepLoop_found (now : Int) (lines : List Line) :
    ∀ fs : FS, (sweepLoop now fs lines).2.1 = lines.any (lineExpired now) := by
  induction lines with
  | nil => exact fun fs => rfl
  | cons hd rest ih =>
    intro fs
    cases hd with
    | junk s =>
      show (sweepLoop now fs rest).2.1 = _
      rw [List.any_cons]
      show _ = (false || _)
      rw [Bool.false_or]
      exact ih fs
    | entry e p =>
      simp only [sweepLoop]
      by_cases h2 : now < e
      · rw [if_pos h2, List.any_cons]
        have he : lineExpired now (Line.entry e p) = false := by
          simp [lineExpired]
          omega
        rw [he, Bool.false_or]
        exact ih fs
      · rw [if_neg h2, List.any_cons]
        have he : lineExpired now (Line.entry e p) = true := by
          simp [lineExpired]
          omega
        rw [he, Bool.true_or]

theorem sweepLoop_fs_of_none_expired (now : Int) (lines : List Line) :
    ∀ fs : FS, lines.any (lineExpired now) = false →
      (sweepLoop now fs lines).2.2 = fs := by
  induction lines with
  | nil => exact fun fs _ => rfl
  | cons hd rest ih =>
    intro fs hany
    rw [List.any_cons, Bool.or_eq_false_iff] at hany
    cases hd with
    | junk s => exact ih fs hany.2
    | entry e p =>
      have h2 : now < e := by
        have := hany.1
        simp [lineExpired] at this
        omega
      simp only [sweepLoop]
      rw [if_pos h2]
      exact ih fs hany.2

theorem sweepLoop_expired_removed (now : Int) (lines : List Line) :
    ∀ fs : FS, ∀ e : Int, ∀ p : FPath, Line.entry e p ∈ lines → e ≤ now →
      isfile (sweepLoop now fs lines).2.2 p = false := by
  induction lines with
  | nil =>
    intro fs e p h _
    exact absurd h (List.not_mem_nil _)
  | cons hd rest ih =>
    intro fs e p hmem he
    rcases List.mem_cons.mp hmem with h | h
    · cases h.symm
      simp only [sweepLoop]
      rw [if_neg (by omega : ¬ now < e)]
      exact isfile_false_of_subset (sweepExpired fs p) _ p
        (sweepLoop_files_subset now rest (sweepExpired fs p))
        (sweepExpired_isfile_self fs p)
    · cases hd with
      | junk s => exact ih fs e p h he
      | entry e2 p2 =>
        simp only [sweepLoop]
        by_cases h2 : now < e2
        · rw [if_pos h2]
          exact ih fs e p h he
        · rw [if_neg h2]
          exact ih (sweepExpired fs p2) e p h he

theorem sweepLoop_lookup_frame (now : Int) (lines : List Line) :
    ∀ fs : FS, ∀ q : FPath,
      (∀ e p, Line.entry e p ∈ lines → e ≤ now → ¬ dirname p <+: q) →
      lookupFile (sweepLoop now fs lines).2.2 q = lookupFile fs q := by
  induction lines with
  | nil => exact fun fs q _ => rfl
  | cons hd rest ih =>
    intro fs q h
    cases hd with
    | junk s => exact ih fs q fun e p hm => h e p (List.mem_cons_of_mem _ hm)
    | entry e p =>
      simp only [sweepLoop]
      by_cases h2 : now < e
      · rw [if_pos h2]
        exact ih fs q fun e' p' hm => h e' p' (List.mem_cons_of_mem _ hm)
      · rw [if_neg h2]
        rw [ih (sweepExpired fs p) q fun e' p' hm => h e' p' (List.mem_cons_of_mem _ hm)]
        exact sweepExpired_lookup_frame fs p q
          (h e p (List.mem_cons_self _ _) (by omega))

theorem sweepLoop_dirs_frame (now : Int) (lines : List Line) :
    ∀ fs : FS, ∀ d : FPath,
      (∀ e p, Line.entry e p ∈ lines → e ≤ now → ¬ dirname p <+: d) →
      (d ∈ (sweepLoop now fs lines).2.2.dirs ↔ d ∈ fs.dirs) := by
  induction lines with
  | nil => exact fun fs d _ => Iff.rfl
  | cons hd rest ih =>
    intro fs d h
    cases hd with
    | junk s => exact ih fs d fun e p hm => h e p (List.mem_cons_of_mem _ hm)
    | entry e p =>
      simp only [sweepLoop]
      by_cases h2 : now < e
      · rw [if_pos h2]
        exact ih fs d fun e' p' hm => h e' p' (List.mem_cons_of_mem _ hm)
      · rw [if_neg h2]
        exact Iff.trans
          (ih (sweepExpired fs p) d fun e' p' hm => h e' p' (List.mem_cons_of_mem _ hm))
          (sweepExpired_dirs_frame fs p d (h e p (List.mem_cons_self _ _) (by omega)))

theorem sweepLoop_dir_preserved (now : Int) (lines : List Line) :
    ∀ fs : FS, ∀ d q : FPath, ∀ v : String, d ∈ fs.dirs →
      (q, v) ∈ (sweepLoop now fs lines).2.2.files → dirname q = d →
      d ∈ (sweepLoop now fs lines).2.2.dirs := by
  induction lines with
  | nil => exact fun fs d q v hd _ _ => hd
  | cons hd rest ih =>
    intro fs d q v hdirs hmem hdq
    cases hd with
    | junk s => exact ih fs d q v hdirs hmem hdq
    | entry e p =>
      simp only [sweepLoop] at hmem ⊢
      by_cases h2 : now < e
      · rw [if_pos h2] at hmem ⊢
        exact ih fs d q v hdirs hmem hdq
      · rw [if_neg h2] at hmem ⊢
        refine ih (sweepExpired fs p) d q v ?_ hmem hdq
        have hqmem : (q, v) ∈ (sweepExpired fs p).files :=
          sweepLoop_files_subset now rest (sweepExpired fs p) _ hmem
        unfold sweepExpired at hqmem ⊢
        by_cases hf : isfile fs p = true
        · rw [if_pos hf] at hqmem ⊢
          dsimp only at hqmem ⊢
          by_cases hemp : (listdir (removeFile fs p) (dirname p) == []) = true
          · rw [if_pos hemp] at hqmem ⊢
            have hq1 : (q, v) ∈ (removeFile fs p).files :=
              (List.mem_filter.mp hqmem).1
            have hq2 : underDir (dirname p) q = false := by
              have := (List.mem_filter.mp hqmem).2
              rcases hu : underDir (dirname p) q with _ | _
              · rfl
              · rw [hu] at this
                exact absurd this (by simp)
            have hnil : listdir (removeFile fs p) (dirname p) = [] := by
              exact eq_of_beq hemp
            have h1 : (d == dirname p) = false := by
              apply beq_eq_false_iff_ne.mpr
              intro heq
              have hqin : q ∈ listdir (removeFile fs p) (dirname p) := by
                unfold listdir
                apply List.mem_filter.mpr
                refine ⟨List.mem_append.mpr (Or.inl ?_), ?_⟩
                · exact List.mem_map.mpr ⟨(q, v), hq1, rfl⟩
                · rw [hdq, heq]
                  exact beq_self_eq_true _
              rw [hnil] at hqin
              exact absurd hqin (List.not_mem_nil _)
            have h2 : underDir (dirname p) d = false := by
              rcases hu : underDir (dirname p) d with _ | _
              · rfl
              · exfalso
                obtain ⟨hpre, hlen⟩ := (underDir_eq_true_iff _ _).mp hu
                have hdq2 : d <+: q := hdq ▸ List.dropLast_prefix q
                have hlen2 : d.length < q.length := by
                  have hql : (dirname q).length = q.length - 1 :=
                    List.length_dropLast q
                  rw [hdq] at hql
                  omega
                have : underDir (dirname p) q = true :=
                  (underDir_eq_true_iff _ _).mpr
                    ⟨hpre.trans hdq2, Nat.lt_trans hlen hlen2⟩
                rw [this] at hq2
                exact Bool.noConfusion hq2
            exact List.mem_filter.mpr ⟨hdirs, by simp [h1, h2]⟩
          · rw [if_neg hemp] at hqmem ⊢
            exact hdirs
        · rw [if_neg hf] at hqmem ⊢
          exact hdirs

theorem sweepLoop_cons_kept (now : Int) (fs : FS) (e : Int) (p : FPath)
    (rest : List Line) (h : now < e) :
    sweepLoop now fs (Line.entry e p :: rest)
      = (Line.entry e p :: (sweepLoop now fs rest).1,
         (sweepLoop now fs rest).2.1, (sweepLoop now fs rest).2.2) := by
  simp only [sweepLoop]
  rw [if_pos h]

theorem sweepLoop_cons_expired (now : Int) (fs : FS) (e : Int) (p : FPath)
    (rest : List Line) (h : ¬ now < e) :
    sweepLoop now fs (Line.entry e p :: rest)
      = ((sweepLoop now (sweepExpired fs p) rest).1, true,
         (sweepLoop now (sweepExpired fs p) rest).2.2) := by
  simp only [sweepLoop]
  rw [if_neg h]

theorem sweepLoop_dirs_subset (now : Int) (lines : List Line) :
    ∀ fs : FS, ∀ d : FPath,
      d ∈ (sweepLoop now fs lines).2.2.dirs → d ∈ fs.dirs := by
  induction lines with
  | nil => exact fun fs d hd => hd
  | cons hl rest ih =>
    intro fs d hdm
    cases hl with
    | junk s => exact ih fs d hdm
    | entry e p =>
      simp only [sweepLoop] at hdm
      by_cases h2 : now < e
      · rw [if_pos h2] at hdm
        exact ih fs d hdm
      · rw [if_neg h2] at hdm
        exact sweepExpired_dirs_subset fs p d (ih (sweepExpired fs p) d hdm)

/-- If a shard directory `d` (with no subdirectories) survives the sweep
even though one of its files was removed, then some file in `d` is still
there at the end: at the moment the sweep removed the last file of `d` it
would have found `listdir d` empty and deleted `d`. -/
theorem sweepLoop_occupied_of_dir_kept (now : Int) (lines : List Line) :
    ∀ fs : FS, ∀ d : FPath,
      (∀ dd, dd ∈ fs.dirs → dirname dd ≠ d) →
      d ∈ (sweepLoop now fs lines).2.2.dirs →
      (∃ q v, (q, v) ∈ fs.files ∧ dirname q = d ∧
        (q, v) ∉ (sweepLoop now fs lines).2.2.files) →
      ∃ q v, (q, v) ∈ (sweepLoop now fs lines).2.2.files ∧ dirname q = d := by
  induction lines with
  | nil =>
    intro fs d _ _ hrem
    obtain ⟨q, v, hq, _, hqn⟩ := hrem
    exact absurd hq hqn
  | cons hl rest ih =>
    intro fs d hnod hd hrem
    cases hl with
    | junk s => exact ih fs d hnod hd hrem
    | entry e' p' =>
      by_cases h2 : now < e'
      · rw [sweepLoop_cons_kept now fs e' p' rest h2] at hd hrem ⊢
        dsimp only at hd hrem ⊢
        exact ih fs d hnod hd hrem
      · rw [sweepLoop_cons_expired now fs e' p' rest h2] at hd hrem ⊢
        dsimp only at hd hrem ⊢
        have hd1 : d ∈ (sweepExpired fs p').dirs :=
          sweepLoop_dirs_subset now rest (sweepExpired fs p') d hd
        obtain ⟨q, v, hqf, hqd, hqn⟩ := hrem
        by_cases hq1 : (q, v) ∈ (sweepExpired fs p').files
        · exact ih (sweepExpired fs p') d
            (fun dd hdd => hnod dd (sweepExpired_dirs_subset fs p' dd hdd))
            hd ⟨q, v, hq1, hqd, hqn⟩
        · by_cases hf : isfile fs p' = true
          · by_cases hemp : (listdir (removeFile fs p') (dirname p') == []) = true
            · have hfs1 : sweepExpired fs p' = rmtree (removeFile fs p') (dirname p') := by
                unfold sweepExpired
                rw [if_pos hf, if_pos hemp]
              rw [hfs1] at hd1 hq1
              have hdc := (List.mem_filter.mp hd1).2
              by_cases hqp : q = p'
              · subst hqp
                rw [hqd] at hdc
                simp at hdc
              · have hq2 : underDir (dirname p') q = true := by
                  by_contra hq2
                  apply hq1
                  apply List.mem_filter.mpr
                  refine ⟨List.mem_filter.mpr ⟨hqf, ?_⟩, ?_⟩
                  · simp [beq_eq_false_iff_ne.mpr hqp]
                  · rcases hu : underDir (dirname p') q with _ | _
                    · simp [hu]
                    · exact absurd hu hq2
                obtain ⟨hpre, hlen⟩ := (underDir_eq_true_iff _ _).mp hq2
                have hdpre : d <+: q := hqd ▸ List.dropLast_prefix q
                have hdlen : d.length = q.length - 1 := by
                  rw [← hqd]
                  exact List.length_dropLast q
                rcases List.prefix_or_prefix_of_prefix hpre hdpre with hc | hc
                · by_cases heq : dirname p' = d
                  · rw [heq] at hdc
                    simp at hdc
                  · have hu2 : underDir (dirname p') d = true :=
                      (underDir_eq_true_iff _ _).mpr
                        ⟨hc, lt_of_le_of_ne hc.length_le
                          (fun hl => heq (hc.eq_of_length hl))⟩
                    rw [hu2] at hdc
                    simp at hdc
                · have heq : d = dirname p' := hc.eq_of_length (by
                    have := hc.length_le
                    omega)
                  rw [← heq] at hdc
                  simp at hdc
            · have hfs1 : sweepExpired fs p' = removeFile fs p' := by
                unfold sweepExpired
                rw [if_pos hf, if_neg hemp]
              rw [hfs1] at hd hd1 hq1 ⊢
              have hqp : q = p' := by
                by_contra hqp
                exact hq1
                  (List.mem_filter.mpr ⟨hqf, by simp [beq_eq_false_iff_ne.mpr hqp]⟩)
              subst hqp
              have hne : listdir (removeFile fs q) (dirname q) ≠ [] := fun hnil =>
                hemp (by rw [hnil]; rfl)
              obtain ⟨x, hx⟩ := List.exists_mem_of_ne_nil _ hne
              have hx1 := List.mem_filter.mp hx
              have hxd : dirname x = dirname q := eq_of_beq hx1.2
              rcases List.mem_append.mp hx1.1 with hxf | hxdir
              · obtain ⟨xp, hxw, hxe⟩ := List.mem_map.mp hxf
                by_cases hxfin : xp ∈ (sweepLoop now (removeFile fs q) rest).2.2.files
                · exact ⟨xp.1, xp.2, hxfin, by rw [hxe, hxd, hqd]⟩
                · exact ih (removeFile fs q) d (fun dd hdd => hnod dd hdd) hd
                    ⟨xp.1, xp.2, hxw, by rw [hxe, hxd, hqd], hxfin⟩
              · exact absurd (hxd.trans hqd) (hnod x hxdir)
          · have hfs1 : sweepExpired fs p' = fs := by
              unfold sweepExpired
              rw [if_neg hf]
            rw [hfs1] at hq1
            exact absurd hqf hq1

/-! ### Claim C3 -/

theorem any_lineExpired_iff (now : Int) (lines : List Line) :
    lines.any (lineExpired now) = true
      ↔ ∃ e p, Line.entry e p ∈ lines ∧ e ≤ now := by
  rw [List.any_eq_true]
  constructor
  · rintro ⟨l, hl, hexp⟩
    cases l with
    | junk s => exact absurd hexp (by simp [lineExpired])
    | entry e p => exact ⟨e, p, hl, by simpa [lineExpired] using hexp⟩
  · rintro ⟨e, p, hl, he⟩
    exact ⟨Line.entry e p, hl, by simpa [lineExpired]⟩

theorem cacheEnter_eq (now : Int) (c : LocalCache) (lines : List Line)
    (hidx : c.dbIndex = some lines) :
    cacheEnter now c
      = (if (sweepLoop now c.fs lines).2.1 then
          ({ c with
              dbIndex := some (sweepLoop now c.fs lines).1,
              fs := (sweepLoop now c.fs lines).2.2 }, true)
        else ({ c with fs := (sweepLoop now c.fs lines).2.2 }, false)) := by
  unfold cacheEnter
  rw [hidx]

/-- C3: on scoped acquisition with an index present, an `expiry=path` line
(and its blob) is kept exactly when `now < expiry`; every expired entry's
blob file is gone afterwards; files and directories not at or below an
expired entry's shard directory are untouched (so sibling shard
directories survive); a shard directory still containing a blob after the
sweep is never deleted; an expired entry's shard directory (holding no
subdirectories, as shard directories hold only blobs) that its blob's
removal left with no remaining file is deleted; and the index file is
rewritten — with exactly the surviving lines — iff at least one
`expiry=path` line was dropped as expired. -/
theorem C3_sweep (now : Int) (c : LocalCache) (lines : List Line)
    (hidx : c.dbIndex = some lines) :
    ((cacheEnter now c).2 = true ↔ ∃ e p, Line.entry e p ∈ lines ∧ e ≤ now)
    ∧ ((cacheEnter now c).2 = true →
        (cacheEnter now c).1.dbIndex = some (lines.filter (keepLine now)))
    ∧ ((cacheEnter now c).2 = false → (cacheEnter now c).1 = c)
    ∧ (∀ e p, Line.entry e p ∈ lines → e ≤ now →
        isfile (cacheEnter now c).1.fs p = false)
    ∧ (∀ q, (∀ e p, Line.entry e p ∈ lines → e ≤ now → ¬ dirname p <+: q) →
        lookupFile (cacheEnter now c).1.fs q = lookupFile c.fs q)
    ∧ (∀ d, (∀ e p, Line.entry e p ∈ lines → e ≤ now → ¬ dirname p <+: d) →
        (d ∈ (cacheEnter now c).1.fs.dirs ↔ d ∈ c.fs.dirs))
    ∧ (∀ d q v, d ∈ c.fs.dirs → (q, v) ∈ (cacheEnter now c).1.fs.files →
        dirname q = d → d ∈ (cacheEnter now c).1.fs.dirs)
    ∧ (∀ e p, Line.entry e p ∈ lines → e ≤ now → isfile c.fs p = true →
        (∀ dd, dd ∈ c.fs.dirs → dirname dd ≠ dirname p) →
        (∀ q v, (q, v) ∈ (cacheEnter now c).1.fs.files → dirname q ≠ dirname p) →
        dirname p ∉ (cacheEnter now c).1.fs.dirs) := by
  have hfs : (cacheEnter now c).1.fs = (sweepLoop now c.fs lines).2.2 := by
    rw [cacheEnter_eq now c lines hidx]
    split <;> rfl
  have hsnd : (cacheEnter now c).2 = (sweepLoop now c.fs lines).2.1 := by
    rw [cacheEnter_eq now c lines hidx]
    split
    · next h => exact h.symm
    · next h => exact (Bool.eq_false_iff.mpr h).symm
  refine ⟨?_, ?_, ?_, ?_, ?_, ?_, ?_, ?_⟩
  · rw [hsnd, sweepLoop_found now lines c.fs]
    exact any_lineExpired_iff now lines
  · intro h2
    have hf : (sweepLoop now c.fs lines).2.1 = true := hsnd.symm.trans h2
    rw [cacheEnter_eq now c lines hidx, if_pos hf]
    exact congrArg some (sweepLoop_newlines now lines c.fs)
  · intro h3
    have hf : (sweepLoop now c.fs lines).2.1 = false := hsnd.symm.trans h3
    rw [cacheEnter_eq now c lines hidx, if_neg (by simp [hf])]
    have hany : lines.any (lineExpired now) = false :=
      (sweepLoop_found now lines c.fs).symm.trans hf
    show { c with fs := (sweepLoop now c.fs lines).2.2 } = c
    rw [sweepLoop_fs_of_none_expired now lines c.fs hany]
  · intro e p hm he
    rw [hfs]
    exact sweepLoop_expired_removed now lines c.fs e p hm he
  · intro q hq
    rw [hfs]
    exact sweepLoop_lookup_frame now lines c.fs q hq
  · intro d hd
    rw [hfs]
    exact sweepLoop_dirs_frame now lines c.fs d hd
  · intro d q v hd hm hdq
    rw [hfs] at hm ⊢
    exact sweepLoop_dir_preserved now lines c.fs d q v hd hm hdq
  · intro e p hm he hfile hnod hempty
    rw [hfs] at hempty ⊢
    intro hdin
    obtain ⟨v, hv⟩ := (lookup_isSome_iff _ _).mp hfile
    have hpn : (p, v) ∉ (sweepLoop now c.fs lines).2.2.files := by
      intro hin
      have hsome : isfile (sweepLoop now c.fs lines).2.2 p = true :=
        (lookup_isSome_iff _ _).mpr ⟨v, hin⟩
      rw [sweepLoop_expired_removed now lines c.fs e p hm he] at hsome
      exact Bool.noConfusion hsome
    obtain ⟨q', v', hin', hdq'⟩ :=
      sweepLoop_occupied_of_dir_kept now lines c.fs (dirname p) hnod hdin
        ⟨p, v, hv, rfl, hpn⟩
    exact hempty q' v' hin' hdq'

/-- C3 witness: at time 10, the entry expiring at 5 is swept (blob and
shard directory removed), the entry expiring at 20 and its blob and shard
directory survive untouched, and the index is rewritten to the single
surviving line. -/
theorem C3_witness :
    (cacheEnter 10 sweepExampleCache).2 = true
    ∧ (cacheEnter 10 sweepExampleCache).1.dbIndex
        = some [Line.entry 20 ["root", "bb", "yybb"]]
    ∧ isfile (cacheEnter 10 sweepExampleCache).1.fs ["root", "aa", "xxaa"] = false
    ∧ lookupFile (cacheEnter 10 sweepExampleCache).1.fs ["root", "bb", "yybb"]
        = some "2"
    ∧ ["root", "bb"] ∈ (cacheEnter 10 sweepExampleCache).1.fs.dirs
    ∧ ["root", "aa"] ∉ (cacheEnter 10 sweepExampleCache).1.fs.dirs := by
  have H := C3_sweep 10 sweepExampleCache
    [Line.entry 5 ["root", "aa", "xxaa"], Line.entry 20 ["root", "bb", "yybb"]] rfl
  have hq2 : ∀ (e : Int) (p : FPath),
      Line.entry e p
          ∈ [Line.entry 5 ["root", "aa", "xxaa"], Line.entry 20 ["root", "bb", "yybb"]] →
      e ≤ 10 → ¬ dirname p <+: (["root", "bb", "yybb"] : FPath) := by
    intro e p hm he
    rcases List.mem_cons.mp hm with h | h
    · injection h with h1 h2
      subst h2
      decide
    · rcases List.mem_cons.mp h with h2 | h2
      · injection h2 with h3 h4
        subst h3
        exact absurd he (by omega)
      · exact absurd h2 (List.not_mem_nil _)
  have hd2 : ∀ (e : Int) (p : FPath),
      Line.entry e p
          ∈ [Line.entry 5 ["root", "aa", "xxaa"], Line.entry 20 ["root", "bb", "yybb"]] →
      e ≤ 10 → ¬ dirname p <+: (["root", "bb"] : FPath) := by
    intro e p hm he
    rcases List.mem_cons.mp hm with h | h
    · injection h with h1 h2
      subst h2
      decide
    · rcases List.mem_cons.mp h with h2 | h2
      · injection h2 with h3 h4
        subst h3
        exact absurd he (by omega)
      · exact absurd h2 (List.not_mem_nil _)
  have h1 : (cacheEnter 10 sweepExampleCache).2 = true :=
    H.1.mpr ⟨5, ["root", "aa", "xxaa"], by decide, by decide⟩
  refine ⟨h1, ?_, ?_, ?_, ?_, ?_⟩
  · rw [H.2.1 h1]
    rfl
  · exact H.2.2.2.1 5 ["root", "aa", "xxaa"] (by decide) (by decide)
  · rw [H.2.2.2.2.1 ["root", "bb", "yybb"] hq2]
    rfl
  · exact (H.2.2.2.2.2.1 ["root", "bb"] hd2).mpr (by decide)
  · refine H.2.2.2.2.2.2.2 5 ["root", "aa", "xxaa"] (by decide) (by decide)
      (by decide) (by decide) ?_
    intro q v hin
    have hfiles : (cacheEnter 10 sweepExampleCache).1.fs.files
        = [(["root", "bb", "yybb"], "2")] := by decide
    rw [hfiles] at hin
    rcases List.mem_cons.mp hin with h | h
    · have hq1 : q = ["root", "bb", "yybb"] := congrArg Prod.fst h
      rw [hq1]
      decide
    · exact absurd h (List.not_mem_nil _)

end PlatformioApp

